import Mathlib

/-!
# Verification of the rustlink fetch engine

Shallow embedding of the rustlink repository (starkbamse/rustlink):
the periodic price-fetch loop (`src/fetcher/mod.rs`), the lifecycle
controller (`src/core.rs` / `src/config.rs`), the persisted price
representation and store reads (`src/interface/mod.rs`, `src/lib.rs`),
the decimals-caching contract adapter (`src/interface/mod.rs`), and the
chain presets (`src/chains/mod.rs`).

External collaborators (the RPC provider, the async-std channels, the
timer, the sled store) are modelled as environments: the data they
would produce at each interaction point is a parameter, and the code's
reaction to it is translated line by line from the source.
-/

/-! ## The fetch loop (`src/fetcher/mod.rs`, `fetch_rounds`)

`fetch_rounds` walks `rustlink.configuration.contracts` forever.  For
each `(identifier, address)` pair it runs a `select!` racing the
shutdown channel against the interval timer's next tick; on the
shutdown branch it sends an acknowledgement on `shutdown_send` and
returns, on the tick branch it calls
`fetch_round_data_for_contract` and, on success, sends the round into
the reflector channel (logging a send failure), on failure logs the
fetch error.  We record each of these observable actions as an event.
The round payload (`Round`) is opaque to the loop, so the model is
parametric in the round type `ρ`. -/

/-- One observable action of the fetch loop. `tick` is the interval
timer firing (one suspension of `fetchIntervalSeconds`); `fetch` is one
call of `fetch_round_data_for_contract` (one contract read for one
feed); `deliver` is a successful `sender.send(price_data)`;
`logSendFailed` / `logFetchFailed` are the two `log::error!` sites;
`ack` is `shutdown_send.send(())` just before `return`. -/
inductive FetchEvent (ρ : Type) where
  | tick : FetchEvent ρ
  | fetch (identifier address : String) : FetchEvent ρ
  | deliver (round : ρ) : FetchEvent ρ
  | logSendFailed (round : ρ) : FetchEvent ρ
  | logFetchFailed (identifier address : String) : FetchEvent ρ
  | ack : FetchEvent ρ
  deriving DecidableEq

/-- Environment of the loop: the decisions of everything outside the
loop body, indexed by the select-point counter `k` (the `k`-th time the
loop reaches the `select!`).  `shutdownAt k` says whether the shutdown
branch wins the `k`-th select (the termination channel has a message
and the race resolves to it); `fetchResult k` is the result of the
contract read performed at the `k`-th select point (`none` models
`Err(error)`); `sendOk k` says whether `sender.send` succeeds there
(it fails only when the reflector channel is closed). -/
structure LoopEnv (ρ : Type) where
  shutdownAt : Nat → Bool
  fetchResult : Nat → Option ρ
  sendOk : Nat → Bool

/-- Events of the `match fetch_round_data_for_contract(...)` statement:
on `Ok`, one send attempt (delivered, or a logged send failure); on
`Err`, a logged fetch failure. -/
def fetchOutcome (env : LoopEnv ρ) (k : Nat) (identifier address : String) :
    List (FetchEvent ρ) :=
  match env.fetchResult k with
  | some r => if env.sendOk k then [.deliver r] else [.logSendFailed r]
  | none => [.logFetchFailed identifier address]

/-- Events of one tick-branch iteration of the `select!`: the timer
tick, the contract read for the current feed, then its outcome. -/
def fetchIteration (env : LoopEnv ρ) (k : Nat) (identifier address : String) :
    List (FetchEvent ρ) :=
  .tick :: .fetch identifier address :: fetchOutcome env k identifier address

/-- One pass of `for contract_configuration in contracts { select! { ... } }`:
returns the events emitted and `some k'` (the next select counter) if
the pass completed, or `none` if the shutdown branch won some select
and the function returned (after emitting `ack`). -/
def fetchCycle (env : LoopEnv ρ) :
    List (String × String) → Nat → List (FetchEvent ρ) × Option Nat
  | [], k => ([], some k)
  | c :: cs, k =>
    if env.shutdownAt k then ([.ack], none)
    else
      let rest := fetchCycle env cs (k + 1)
      (fetchIteration env k c.1 c.2 ++ rest.1, rest.2)

/-- `fetch_rounds`: the outer `loop { ... }` iterating `fetchCycle`.
The Rust loop is infinite; `fuel` bounds how many cycles we observe, so
every finite prefix of the real execution is some `fuel`'s trace. -/
def fetch_rounds (env : LoopEnv ρ) (contracts : List (String × String)) :
    Nat → Nat → List (FetchEvent ρ)
  | 0, _ => []
  | fuel + 1, k =>
    match fetchCycle env contracts k with
    | (tr, none) => tr
    | (tr, some next) => tr ++ fetch_rounds env contracts fuel next

/-- The contract-read calls issued in a trace, in order. -/
def fetchCalls : List (FetchEvent ρ) → List (String × String)
  | [] => []
  | .fetch identifier address :: tr => (identifier, address) :: fetchCalls tr
  | _ :: tr => fetchCalls tr

theorem fetchCalls_append (tr₁ tr₂ : List (FetchEvent ρ)) :
    fetchCalls (tr₁ ++ tr₂) = fetchCalls tr₁ ++ fetchCalls tr₂ := by
  induction tr₁ with
  | nil => rfl
  | cons e tr ih => cases e <;> simp [fetchCalls, ih]

theorem fetchCalls_fetchOutcome (env : LoopEnv ρ) (k : Nat) (i a : String) :
    fetchCalls (fetchOutcome env k i a) = [] := by
  unfold fetchOutcome
  cases env.fetchResult k with
  | none => rfl
  | some r =>
    cases h : env.sendOk k <;> simp [fetchCalls]

theorem fetchCalls_fetchIteration (env : LoopEnv ρ) (k : Nat) (i a : String) :
    fetchCalls (fetchIteration env k i a) = [(i, a)] := by
  simp [fetchIteration, fetchCalls, fetchCalls_fetchOutcome]

/-- Shifting the no-shutdown hypothesis past the head of the feed list. -/
theorem noShutdown_tail {env : LoopEnv ρ} {n : Nat} {k : Nat}
    (h : ∀ i, i < n + 1 → env.shutdownAt (k + i) = false) :
    ∀ i, i < n → env.shutdownAt (k + 1 + i) = false := by
  intro i hi
  have := h (i + 1) (by omega)
  have e : k + (i + 1) = k + 1 + i := by omega
  rwa [e] at this

theorem fetchCycle_fetchCalls (env : LoopEnv ρ)
    (contracts : List (String × String)) (k : Nat)
    (h : ∀ i, i < contracts.length → env.shutdownAt (k + i) = false) :
    fetchCalls (fetchCycle env contracts k).1 = contracts := by
  induction contracts generalizing k with
  | nil => rfl
  | cons c cs ih =>
    have h0 : env.shutdownAt k = false := by
      have := h 0 (Nat.succ_pos _)
      simpa using this
    simp [fetchCycle, h0, fetchCalls_append, fetchCalls_fetchIteration,
      ih (k + 1) (noShutdown_tail h)]

/-- C1: one full cycle with no shutdown reads each configured feed
exactly once, in configuration order.

For every configuration whose feed list has length N, one full cycle of
the fetch loop (`fetch_rounds`, here one `fetchCycle` pass in which the
shutdown branch never wins) issues exactly N contract-read calls, one
per configured feed, and the fetch order within the cycle matches the
order of the configured feed list, with no reordering. -/
theorem fetch_cycle_reads_each_feed_once_in_order (env : LoopEnv ρ)
    (contracts : List (String × String)) (k : Nat)
    (h : ∀ i, i < contracts.length → env.shutdownAt (k + i) = false) :
    fetchCalls (fetchCycle env contracts k).1 = contracts :=
  fetchCycle_fetchCalls env contracts k h

/-- Witness for C1 at a concrete two-feed configuration with a
never-winning shutdown branch. -/
theorem fetch_cycle_reads_each_feed_once_in_order_witness :
    fetchCalls (fetchCycle (ρ := Unit)
        ⟨fun _ => false, fun _ => none, fun _ => true⟩
        [("ETH", "0xA"), ("BTC", "0xB")] 0).1 = [("ETH", "0xA"), ("BTC", "0xB")] :=
  fetch_cycle_reads_each_feed_once_in_order
    ⟨fun _ => false, fun _ => none, fun _ => true⟩
    [("ETH", "0xA"), ("BTC", "0xB")] 0 (fun _ _ => rfl)

/-! ### C2: steady-state errors are absorbed -/

theorem ack_not_mem_fetchOutcome (env : LoopEnv ρ) (k : Nat) (i a : String) :
    FetchEvent.ack ∉ fetchOutcome env k i a := by
  unfold fetchOutcome
  cases env.fetchResult k with
  | none => simp
  | some r => cases h : env.sendOk k <;> simp

theorem ack_not_mem_fetchIteration (env : LoopEnv ρ) (k : Nat) (i a : String) :
    FetchEvent.ack ∉ fetchIteration env k i a := by
  intro hmem
  simp only [fetchIteration, List.mem_cons] at hmem
  rcases hmem with h | h | h
  · exact FetchEvent.noConfusion h
  · exact FetchEvent.noConfusion h
  · exact ack_not_mem_fetchOutcome env k i a h

theorem fetchCycle_snd (env : LoopEnv ρ)
    (contracts : List (String × String)) (k : Nat)
    (h : ∀ i, i < contracts.length → env.shutdownAt (k + i) = false) :
    (fetchCycle env contracts k).2 = some (k + contracts.length) := by
  induction contracts generalizing k with
  | nil => rfl
  | cons c cs ih =>
    have h0 : env.shutdownAt k = false := by
      have := h 0 (Nat.succ_pos _)
      simpa using this
    have := ih (k + 1) (noShutdown_tail h)
    simp only [fetchCycle, h0, Bool.false_eq_true, if_false, List.length_cons]
    rw [this]
    congr 1
    omega

theorem fetchCycle_ack_not_mem (env : LoopEnv ρ)
    (contracts : List (String × String)) (k : Nat)
    (h : ∀ i, i < contracts.length → env.shutdownAt (k + i) = false) :
    FetchEvent.ack ∉ (fetchCycle env contracts k).1 := by
  induction contracts generalizing k with
  | nil => simp [fetchCycle]
  | cons c cs ih =>
    have h0 : env.shutdownAt k = false := by
      have := h 0 (Nat.succ_pos _)
      simpa using this
    simp only [fetchCycle, h0, Bool.false_eq_true, if_false, List.mem_append]
    rintro (hmem | hmem)
    · exact ack_not_mem_fetchIteration env k c.1 c.2 hmem
    · exact ih (k + 1) (noShutdown_tail h) hmem

theorem mem_fetch_of_mem_fetchCalls {tr : List (FetchEvent ρ)} {i a : String}
    (h : (i, a) ∈ fetchCalls tr) : FetchEvent.fetch i a ∈ tr := by
  induction tr with
  | nil => exact absurd h (List.not_mem_nil _)
  | cons e tr ih =>
    cases e with
    | fetch i' a' =>
      simp only [fetchCalls, List.mem_cons] at h
      rcases h with h | h
      · rw [Prod.mk.injEq] at h
        simp [h.1, h.2]
      · exact List.mem_cons_of_mem _ (ih h)
    | tick => exact List.mem_cons_of_mem _ (ih h)
    | deliver r => exact List.mem_cons_of_mem _ (ih h)
    | logSendFailed r => exact List.mem_cons_of_mem _ (ih h)
    | logFetchFailed i' a' => exact List.mem_cons_of_mem _ (ih h)
    | ack => exact List.mem_cons_of_mem _ (ih h)

theorem fetchCycle_logFetchFailed (env : LoopEnv ρ)
    (contracts : List (String × String)) (k : Nat)
    (h : ∀ j, j < contracts.length → env.shutdownAt (k + j) = false)
    (i : Nat) (hi : i < contracts.length)
    (hf : env.fetchResult (k + i) = none) :
    FetchEvent.logFetchFailed contracts[i].1 contracts[i].2 ∈
      (fetchCycle env contracts k).1 := by
  induction contracts generalizing k i with
  | nil => exact absurd hi (Nat.not_lt_zero _)
  | cons c cs ih =>
    have h0 : env.shutdownAt k = false := by
      have := h 0 (Nat.succ_pos _)
      simpa using this
    simp only [fetchCycle, h0, Bool.false_eq_true, if_false, List.mem_append]
    cases i with
    | zero =>
      left
      have hf0 : env.fetchResult k = none := by simpa using hf
      simp [fetchIteration, fetchOutcome, hf0]
    | succ i' =>
      right
      have hi' : i' < cs.length := by simpa using Nat.lt_of_succ_lt_succ hi
      have hf' : env.fetchResult (k + 1 + i') = none := by
        have e : k + (i' + 1) = k + 1 + i' := by omega
        rwa [e] at hf
      simpa using ih (k + 1) (noShutdown_tail h) i' hi' hf'

theorem fetchCycle_logSendFailed (env : LoopEnv ρ)
    (contracts : List (String × String)) (k : Nat)
    (h : ∀ j, j < contracts.length → env.shutdownAt (k + j) = false)
    (i : Nat) (hi : i < contracts.length) (r : ρ)
    (hf : env.fetchResult (k + i) = some r)
    (hs : env.sendOk (k + i) = false) :
    FetchEvent.logSendFailed r ∈ (fetchCycle env contracts k).1 := by
  induction contracts generalizing k i with
  | nil => exact absurd hi (Nat.not_lt_zero _)
  | cons c cs ih =>
    have h0 : env.shutdownAt k = false := by
      have := h 0 (Nat.succ_pos _)
      simpa using this
    simp only [fetchCycle, h0, Bool.false_eq_true, if_false, List.mem_append]
    cases i with
    | zero =>
      left
      have hf0 : env.fetchResult k = some r := by simpa using hf
      have hs0 : env.sendOk k = false := by simpa using hs
      simp [fetchIteration, fetchOutcome, hf0, hs0]
    | succ i' =>
      right
      have hi' : i' < cs.length := by simpa using Nat.lt_of_succ_lt_succ hi
      have e : k + (i' + 1) = k + 1 + i' := by omega
      exact ih (k + 1) (noShutdown_tail h) i' hi' (by rwa [e] at hf) (by rwa [e] at hs)

/-- C2: every steady-state error inside the fetch loop is locally
absorbed.  In a cycle in which the shutdown branch never wins, for an
arbitrary environment (the contract read may fail at any step, the
reflector send may fail at any step): the cycle still completes and
hands the loop the next select counter (so the loop keeps running and
nothing propagates to the caller of `start()`); the loop does not take
its only return path (no `ack`); every configured feed is still
attempted — in particular feed i+1 is attempted after feed i fails; a
failed contract read for feed i is logged; a failed delivery of a
fetched round is logged and that round is simply dropped (the send is
the only action taken with it). -/
theorem fetch_loop_absorbs_steady_state_errors (env : LoopEnv ρ)
    (contracts : List (String × String)) (k : Nat)
    (h : ∀ j, j < contracts.length → env.shutdownAt (k + j) = false) :
    (fetchCycle env contracts k).2 = some (k + contracts.length) ∧
    FetchEvent.ack ∉ (fetchCycle env contracts k).1 ∧
    (∀ c ∈ contracts, FetchEvent.fetch c.1 c.2 ∈ (fetchCycle env contracts k).1) ∧
    (∀ i, (hi : i < contracts.length) → env.fetchResult (k + i) = none →
      FetchEvent.logFetchFailed contracts[i].1 contracts[i].2 ∈
        (fetchCycle env contracts k).1) ∧
    (∀ i, (hi : i < contracts.length) → ∀ r, env.fetchResult (k + i) = some r →
      env.sendOk (k + i) = false →
      FetchEvent.logSendFailed r ∈ (fetchCycle env contracts k).1) := by
  refine ⟨fetchCycle_snd env contracts k h, fetchCycle_ack_not_mem env contracts k h,
    ?_, ?_, ?_⟩
  · intro c hc
    have : (c.1, c.2) ∈ fetchCalls (fetchCycle env contracts k).1 := by
      rw [fetchCycle_fetchCalls env contracts k h]
      simpa using hc
    exact mem_fetch_of_mem_fetchCalls this
  · intro i hi hf
    exact fetchCycle_logFetchFailed env contracts k h i hi hf
  · intro i hi r hf hs
    exact fetchCycle_logSendFailed env contracts k h i hi r hf hs

/-- A concrete environment for the C2 witness: no shutdown, the
contract read at select point 0 fails, later reads succeed but every
delivery fails. -/
def envC2 : LoopEnv Unit :=
  ⟨fun _ => false, fun k => if k = 0 then none else some (), fun _ => false⟩

/-- Witness for C2: a concrete two-feed cycle in which the first feed's
contract read fails and the second feed's delivery fails. -/
theorem fetch_loop_absorbs_steady_state_errors_witness :
    (fetchCycle envC2 [("ETH", "0xA"), ("BTC", "0xB")] 0).2 = some 2 ∧
    FetchEvent.ack ∉ (fetchCycle envC2 [("ETH", "0xA"), ("BTC", "0xB")] 0).1 ∧
    (∀ c ∈ [("ETH", "0xA"), ("BTC", "0xB")],
      FetchEvent.fetch c.1 c.2 ∈ (fetchCycle envC2 [("ETH", "0xA"), ("BTC", "0xB")] 0).1) ∧
    (∀ i, (hi : i < 2) → envC2.fetchResult (0 + i) = none →
      FetchEvent.logFetchFailed [("ETH", "0xA"), ("BTC", "0xB")][i].1
        [("ETH", "0xA"), ("BTC", "0xB")][i].2 ∈
        (fetchCycle envC2 [("ETH", "0xA"), ("BTC", "0xB")] 0).1) ∧
    (∀ i, (hi : i < 2) → ∀ r, envC2.fetchResult (0 + i) = some r →
      envC2.sendOk (0 + i) = false →
      FetchEvent.logSendFailed r ∈ (fetchCycle envC2 [("ETH", "0xA"), ("BTC", "0xB")] 0).1) :=
  fetch_loop_absorbs_steady_state_errors envC2 [("ETH", "0xA"), ("BTC", "0xB")] 0
    (fun _ _ => rfl)

/-! ### C4: quiescence after shutdown

The acknowledgement (`shutdown_send.send(())`) is emitted on the only
`return` path of `fetch_rounds`, so no event at all — in particular no
`deliver` — follows it in any trace of the loop. -/

theorem fetchCycle_ack_of_none (env : LoopEnv ρ)
    (contracts : List (String × String)) (k : Nat)
    (h : (fetchCycle env contracts k).2 = none) :
    ∃ pre, (fetchCycle env contracts k).1 = pre ++ [FetchEvent.ack] ∧
      FetchEvent.ack ∉ pre := by
  induction contracts generalizing k with
  | nil => exact absurd h (by simp [fetchCycle])
  | cons c cs ih =>
    by_cases h0 : env.shutdownAt k
    · exact ⟨[], by simp [fetchCycle, h0], by simp⟩
    · simp only [fetchCycle, h0, Bool.false_eq_true, if_false] at h ⊢
      obtain ⟨pre, hpre, hnot⟩ := ih (k + 1) h
      refine ⟨fetchIteration env k c.1 c.2 ++ pre, ?_, ?_⟩
      · rw [hpre, List.append_assoc]
      · intro hmem
        rcases List.mem_append.mp hmem with hmem | hmem
        · exact ack_not_mem_fetchIteration env k c.1 c.2 hmem
        · exact hnot hmem

theorem fetchCycle_no_ack_of_some (env : LoopEnv ρ)
    (contracts : List (String × String)) (k next : Nat)
    (h : (fetchCycle env contracts k).2 = some next) :
    FetchEvent.ack ∉ (fetchCycle env contracts k).1 := by
  induction contracts generalizing k next with
  | nil => simp [fetchCycle]
  | cons c cs ih =>
    by_cases h0 : env.shutdownAt k
    · exact absurd h (by simp [fetchCycle, h0])
    · simp only [fetchCycle, h0, Bool.false_eq_true, if_false, List.mem_append] at h ⊢
      rintro (hmem | hmem)
      · exact ack_not_mem_fetchIteration env k c.1 c.2 hmem
      · exact ih (k + 1) next h hmem

/-- C4: quiescence after shutdown.  In every trace of the fetch loop,
either the shutdown acknowledgement never occurs, or it is the very
last event: nothing — in particular no `deliver` of a round into the
reflector channel and no further fetch — happens after the
acknowledgement that releases `stop()`.  Hence once `stop()` has
returned successfully (which requires the acknowledgement to have been
sent), no further deliveries occur. -/
theorem fetch_rounds_quiescent_after_ack (env : LoopEnv ρ)
    (contracts : List (String × String)) (fuel k : Nat) :
    FetchEvent.ack ∉ fetch_rounds env contracts fuel k ∨
    ∃ pre, fetch_rounds env contracts fuel k = pre ++ [FetchEvent.ack] ∧
      FetchEvent.ack ∉ pre := by
  induction fuel generalizing k with
  | zero => exact Or.inl (by simp [fetch_rounds])
  | succ fuel ih =>
    rcases hc : fetchCycle env contracts k with ⟨tr, res⟩
    cases res with
    | none =>
      right
      obtain ⟨pre, hpre, hnot⟩ := fetchCycle_ack_of_none env contracts k (by rw [hc])
      rw [hc] at hpre
      exact ⟨pre, by simp only [fetch_rounds, hc]; exact hpre, hnot⟩
    | some next =>
      have htr : FetchEvent.ack ∉ tr := by
        have := fetchCycle_no_ack_of_some env contracts k next (by rw [hc])
        rwa [hc] at this
      rcases ih next with hrec | ⟨pre, hpre, hnot⟩
      · left
        simp only [fetch_rounds, hc, List.mem_append]
        rintro (hmem | hmem)
        · exact htr hmem
        · exact hrec hmem
      · right
        refine ⟨tr ++ pre, ?_, ?_⟩
        · simp only [fetch_rounds, hc, hpre, List.append_assoc]
        · intro hmem
          rcases List.mem_append.mp hmem with hmem | hmem
          · exact htr hmem
          · exact hnot hmem

/-! ### C8: pacing

Each feed attempt sits between two timer suspensions: the loop consumes
exactly one interval tick per feed attempt, so ticks and contract reads
strictly alternate and a full cycle consumes `contracts.length` ticks —
after each feed's attempt (success or failure) exactly one
`fetchIntervalSeconds` suspension separates it from the next attempt,
and a full cycle takes `feeds.length` intervals. -/

/-- The pacing skeleton of a trace: just its timer ticks and
contract-read calls, in order. -/
def tickFetchSkeleton : List (FetchEvent ρ) → List (FetchEvent ρ)
  | [] => []
  | .tick :: tr => .tick :: tickFetchSkeleton tr
  | .fetch identifier address :: tr =>
      .fetch identifier address :: tickFetchSkeleton tr
  | _ :: tr => tickFetchSkeleton tr

theorem tickFetchSkeleton_append (tr₁ tr₂ : List (FetchEvent ρ)) :
    tickFetchSkeleton (tr₁ ++ tr₂) =
      tickFetchSkeleton tr₁ ++ tickFetchSkeleton tr₂ := by
  induction tr₁ with
  | nil => rfl
  | cons e tr ih => cases e <;> simp [tickFetchSkeleton, ih]

theorem tickFetchSkeleton_fetchOutcome (env : LoopEnv ρ) (k : Nat) (i a : String) :
    tickFetchSkeleton (fetchOutcome env k i a) = [] := by
  unfold fetchOutcome
  cases env.fetchResult k with
  | none => rfl
  | some r => cases h : env.sendOk k <;> simp [tickFetchSkeleton]

/-- C8: pacing.  In a cycle with no shutdown, the sequence of timer
suspensions and fetch attempts is exactly `tick, fetch feed₀, tick,
fetch feed₁, …`: one interval suspension immediately precedes every
fetch attempt, so after each feed's attempt (whether its read or its
delivery succeeded or failed) the loop suspends for exactly one

`fetchIntervalSeconds` interval before the next feed's attempt, and a
full cycle over N feeds consumes exactly N interval ticks. -/
theorem fetch_cycle_one_tick_between_attempts (env : LoopEnv ρ)
    (contracts : List (String × String)) (k : Nat)
    (h : ∀ i, i < contracts.length → env.shutdownAt (k + i) = false) :
    tickFetchSkeleton (fetchCycle env contracts k).1 =
      (contracts.map fun c => [FetchEvent.tick, FetchEvent.fetch c.1 c.2]).flatten := by
  induction contracts generalizing k with
  | nil => rfl
  | cons c cs ih =>
    have h0 : env.shutdownAt k = false := by
      have := h 0 (Nat.succ_pos _)
      simpa using this
    simp [fetchCycle, h0, tickFetchSkeleton_append, fetchIteration, tickFetchSkeleton,
      tickFetchSkeleton_fetchOutcome, ih (k + 1) (noShutdown_tail h)]

/-- Witness for C8 at a concrete two-feed configuration. -/
theorem fetch_cycle_one_tick_between_attempts_witness :
    tickFetchSkeleton (fetchCycle envC2 [("ETH", "0xA"), ("BTC", "0xB")] 0).1 =
      [FetchEvent.tick, FetchEvent.fetch "ETH" "0xA",
       FetchEvent.tick, FetchEvent.fetch "BTC" "0xB"] :=
  fetch_cycle_one_tick_between_attempts envC2
    [("ETH", "0xA"), ("BTC", "0xB")] 0 (fun _ _ => rfl)

/-! ## The lifecycle controller (`src/core.rs`, `Rustlink::stop`)

```rust
pub async fn stop(&self) -> Result<(), RecvError> {
    self.termination_send.send(()).await.unwrap();
    self.shutdown_recv.recv().await
}
```

`termination_send` / `shutdown_recv` are the two unbounded async-std
channels created in `try_new`.  A `send` on an open unbounded channel
appends one message and succeeds; `recv` resolves to `Ok(())` when a
message (the loop's acknowledgement) arrives, and to `Err(RecvError)`
when the channel is closed while empty (the loop died without
acknowledging).  The eventual resolution of the `recv` is the
environment's input; the blocking itself is the awaiting of that
resolution. -/

/-- `async_std::channel::RecvError`: the error `recv` returns when the
channel is closed and empty. -/
inductive RecvError where
  | recvError : RecvError
  deriving DecidableEq

/-- How the `shutdown_recv.recv().await` in `stop` eventually resolves:
a message (the loop's acknowledgement) arrives, or the channel is
closed without one. -/
inductive RecvOutcome where
  | message : RecvOutcome
  | closed : RecvOutcome
  deriving DecidableEq

/-- `Rustlink::stop`: sends one `()` into the termination channel
(whose queued-message count is `terminationQueued`), then returns the
result of receiving on the shutdown channel. -/
def Rustlink.stop (terminationQueued : Nat) (ackOutcome : RecvOutcome) :
    Nat × Except RecvError Unit :=
  (terminationQueued + 1,
   match ackOutcome with
   | .message => .ok ()
   | .closed => .error .recvError)

/-- C3: `stop()` sends exactly one cancellation notice on the
termination channel (the queue grows by exactly one), then waits on the
shutdown channel; it returns `Ok(())` exactly when the loop's
acknowledgement arrives, and returns `Err(RecvError)` — rather than
hanging or panicking — exactly when the acknowledgement channel is
closed without a signal. -/
theorem stop_sends_once_then_reports_ack (n : Nat) (o : RecvOutcome) :
    (Rustlink.stop n o).1 = n + 1 ∧
    ((Rustlink.stop n o).2 = .ok () ↔ o = .message) ∧
    ((Rustlink.stop n o).2 = .error .recvError ↔ o = .closed) := by
  refine ⟨rfl, ?_, ?_⟩ <;> cases o <;> simp [Rustlink.stop]

/-! ## The persisted price representation
(`src/interface/mod.rs`, `impl Serializable for PriceData`)

```rust
pub struct PriceData {
    pub round_id: u128,
    pub answered_in_round: u128,
    pub started_at: String,
    pub updated_at: String,
    pub price: f64,
}
fn to_bin(&self) -> ... { bincode::serialize(&self) }
fn from_bin(data: Vec<u8>) -> ... { bincode::deserialize(&data) }
```

`bincode::serialize` (bincode 1.x legacy options: fixed-width integers,
little endian, trailing bytes allowed on deserialize) writes the fields
in declaration order: `u128` as 16 little-endian bytes, `String` as a
`u64` little-endian byte length followed by the UTF-8 bytes, `f64` as
the 8 little-endian bytes of its IEEE-754 bit pattern.  The model works
at the byte level: the string fields are their byte sequences and the
`f64` field is its 64-bit pattern, so serialization is exact (bincode
neither inspects nor transforms the bits).  The UTF-8 re-validation on
deserialize is not modelled: the bytes being round-tripped come from a
Rust `String` and are valid UTF-8 by construction. -/

/-- `w` little-endian bytes of `n` (bincode fixed-width integer
encoding). -/
def toLEBytes : Nat → Nat → List Nat
  | 0, _ => []
  | w + 1, n => n % 256 :: toLEBytes w (n / 256)

/-- Read a little-endian byte sequence back as a number. -/
def fromLEBytes : List Nat → Nat
  | [] => 0
  | b :: bs => b + 256 * fromLEBytes bs

/-- Split `w` bytes off the front of the input, or fail (bincode
`deserialize` errors when the input is too short). -/
def takeBytes (w : Nat) (data : List Nat) : Option (List Nat × List Nat) :=
  if w ≤ data.length then some (data.take w, data.drop w) else none

/-- `PriceData`, at the byte level of its persisted representation:
`round_id`/`answered_in_round` are the `u128` values, the two timestamp
strings are their UTF-8 byte sequences, and `price` is the 64-bit
IEEE-754 pattern of the `f64`. -/
structure PriceData where
  round_id : Nat
  answered_in_round : Nat
  started_at : List Nat
  updated_at : List Nat
  price : Nat
  deriving DecidableEq

/-- The representation invariants the Rust types guarantee: `u128`
fields below `2^128`, string byte values below `256` with a `u64`
length, and an `f64` bit pattern below `2^64`. -/
def PriceData.valid (p : PriceData) : Prop :=
  p.round_id < 2 ^ 128 ∧ p.answered_in_round < 2 ^ 128 ∧
  (∀ b ∈ p.started_at, b < 256) ∧ p.started_at.length < 2 ^ 64 ∧
  (∀ b ∈ p.updated_at, b < 256) ∧ p.updated_at.length < 2 ^ 64 ∧
  p.price < 2 ^ 64

/-- `PriceData::to_bin` = `bincode::serialize`: fields in declaration
order; `u128` as 16 LE bytes, `String` as `u64` LE length plus bytes,
`f64` as its 8 LE pattern bytes. -/
def PriceData.to_bin (p : PriceData) : List Nat :=
  toLEBytes 16 p.round_id ++ toLEBytes 16 p.answered_in_round ++
  (toLEBytes 8 p.started_at.length ++ p.started_at) ++
  (toLEBytes 8 p.updated_at.length ++ p.updated_at) ++
  toLEBytes 8 p.price

/-- `PriceData::from_bin` = `bincode::deserialize`: reads the fields
back in order, failing (`None`, bincode's `Err`) when the input runs
out; trailing bytes are permitted, as by bincode's legacy options. -/
def PriceData.from_bin (data : List Nat) : Option PriceData := do
  let (ridBytes, d1) ← takeBytes 16 data
  let (airBytes, d2) ← takeBytes 16 d1
  let (slenBytes, d3) ← takeBytes 8 d2
  let (sBytes, d4) ← takeBytes (fromLEBytes slenBytes) d3
  let (ulenBytes, d5) ← takeBytes 8 d4
  let (uBytes, d6) ← takeBytes (fromLEBytes ulenBytes) d5
  let (priceBytes, _) ← takeBytes 8 d6
  pure { round_id := fromLEBytes ridBytes,
         answered_in_round := fromLEBytes airBytes,
         started_at := sBytes,
         updated_at := uBytes,
         price := fromLEBytes priceBytes }

theorem toLEBytes_length (w n : Nat) : (toLEBytes w n).length = w := by
  induction w generalizing n with
  | zero => rfl
  | succ w ih => simp [toLEBytes, ih]

theorem fromLEBytes_toLEBytes {w n : Nat} (h : n < 256 ^ w) :
    fromLEBytes (toLEBytes w n) = n := by
  induction w generalizing n with
  | zero =>
    have : n = 0 := Nat.lt_one_iff.mp (by simpa using h)
    simp [this, toLEBytes, fromLEBytes]
  | succ w ih =>
    have hlt : n / 256 < 256 ^ w := by
      rw [Nat.div_lt_iff_lt_mul (by norm_num)]
      calc n < 256 ^ (w + 1) := h
        _ = 256 ^ w * 256 := by ring
    simp only [toLEBytes, fromLEBytes, ih hlt]
    omega

theorem takeBytes_front {l : List Nat} {w : Nat} (rest : List Nat)
    (h : l.length = w) : takeBytes w (l ++ rest) = some (l, rest) := by
  subst h
  simp [takeBytes, List.take_left, List.drop_left]

theorem takeBytes_all {l : List Nat} {w : Nat}
    (h : l.length = w) : takeBytes w l = some (l, []) := by
  subst h
  simp [takeBytes, List.take_length, List.drop_length]

/-- C5: serialization round-trip.  For every `PriceData` whose fields
satisfy the Rust type invariants (including zero and the maximal
`u128` magnitudes, and timestamp strings of any content — in
particular decimal renderings of maximal `uint256` values),
deserializing the bytes produced by serializing it yields the original
value: `from_bin(to_bin(round)) == round`. -/
theorem priceData_from_bin_to_bin (p : PriceData) (h : p.valid) :
    PriceData.from_bin (PriceData.to_bin p) = some p := by
  obtain ⟨h1, h2, _, h4, _, h6, h7⟩ := h
  have e1 : (256 : Nat) ^ 16 = 2 ^ 128 := by norm_num
  have e2 : (256 : Nat) ^ 8 = 2 ^ 64 := by norm_num
  unfold PriceData.to_bin PriceData.from_bin
  simp only [List.append_assoc]
  rw [takeBytes_front _ (toLEBytes_length 16 p.round_id)]
  simp only [Option.bind_eq_bind, Option.some_bind]
  rw [takeBytes_front _ (toLEBytes_length 16 p.answered_in_round)]
  simp only [Option.some_bind]
  rw [takeBytes_front _ (toLEBytes_length 8 p.started_at.length)]
  simp only [Option.some_bind]
  rw [fromLEBytes_toLEBytes (by rw [e2]; exact h4), takeBytes_front _ rfl]
  simp only [Option.some_bind]
  rw [takeBytes_front _ (toLEBytes_length 8 p.updated_at.length)]
  simp only [Option.some_bind]
  rw [fromLEBytes_toLEBytes (by rw [e2]; exact h6), takeBytes_front _ rfl]
  simp only [Option.some_bind]
  rw [takeBytes_all (toLEBytes_length 8 p.price)]
  simp only [Option.some_bind, Option.pure_def, Option.some.injEq]
  rw [fromLEBytes_toLEBytes (by rw [e1]; exact h1),
    fromLEBytes_toLEBytes (by rw [e1]; exact h2),
    fromLEBytes_toLEBytes (by rw [e2]; exact h7)]

/-- A maximal-magnitude `PriceData`: both `u128` fields at `2^128 - 1`,
both timestamp strings 78 bytes of `'9'` (the width of the decimal
rendering of `2^256 - 1`), and the `f64` pattern at `2^64 - 1`. -/
def priceDataMax : PriceData :=
  { round_id := 2 ^ 128 - 1,
    answered_in_round := 2 ^ 128 - 1,
    started_at := List.replicate 78 57,
    updated_at := List.replicate 78 57,
    price := 2 ^ 64 - 1 }

/-- An all-zero `PriceData` (empty timestamp strings). -/
def priceDataZero : PriceData :=
  { round_id := 0, answered_in_round := 0,
    started_at := [], updated_at := [], price := 0 }

/-- Witness for C5 at the zero and maximal-magnitude values. -/
theorem priceData_from_bin_to_bin_witness :
    PriceData.from_bin (PriceData.to_bin priceDataMax) = some priceDataMax ∧
    PriceData.from_bin (PriceData.to_bin priceDataZero) = some priceDataZero :=
  ⟨priceData_from_bin_to_bin priceDataMax
      (by unfold PriceData.valid priceDataMax; decide),
   priceData_from_bin_to_bin priceDataZero
      (by unfold PriceData.valid priceDataZero; decide)⟩

/-! ## Store reads (`src/lib.rs`, `CryptoPrices::get_price`)

```rust
fn get_from_tree(db: &Tree, key: &str) -> Result<Vec<u8>, DatabaseError> {
    Ok(db.get(key)?.ok_or(DatabaseError::NotFound)?.to_vec())
}
pub fn get_price(&self, ticker: &str) -> Result<PriceData, DatabaseError> {
    let binary_data = Self::get_from_tree(&self.tree, ticker)?;
    PriceData::from_bin(binary_data).map_err(|error| { ...; DatabaseError::Deserialize })
}
```

The sled tree is modelled as an association list from keys to stored
byte strings (`db.get` returning `Ok(None)` is a `none` lookup; sled's
own I/O errors, the `SledError` variant, are the store engine's
internals and are not exercised here). -/

/-- `DatabaseError` (`src/lib.rs`; the identical enum is `Error` in
`src/error.rs`): `NotFound`, `Deserialize`, and the wrapper for sled's
internal errors. -/
inductive DatabaseError where
  | notFound : DatabaseError
  | deserialize : DatabaseError
  | sledError (message : String) : DatabaseError
  deriving DecidableEq

/-- `CryptoPrices::get_from_tree`: a present key yields its bytes, an
absent key yields `NotFound`. -/
def get_from_tree (db : List (String × List Nat)) (key : String) :
    Except DatabaseError (List Nat) :=
  match db.lookup key with
  | some v => .ok v
  | none => .error .notFound

/-- `CryptoPrices::get_price`: read the stored bytes (propagating
`NotFound` via `?`), then deserialize, mapping a deserialization
failure to `Deserialize`. -/
def CryptoPrices.get_price (db : List (String × List Nat)) (ticker : String) :
    Except DatabaseError PriceData :=
  match get_from_tree db ticker with
  | .error e => .error e
  | .ok binary_data =>
    match PriceData.from_bin binary_data with
    | some p => .ok p
    | none => .error .deserialize

/-- C6: the store read distinguishes absence from corruption.  For
every identifier with no entry in the store, `get_price` returns the
`NotFound` error; for every identifier whose stored bytes fail to
deserialize, it returns the `Deserialize` error.  Both are returned
synchronously as the function's value. -/
theorem get_price_distinguishes_absence_from_corruption
    (db : List (String × List Nat)) (ticker : String) :
    (db.lookup ticker = none →
      CryptoPrices.get_price db ticker = .error .notFound) ∧
    (∀ bs, db.lookup ticker = some bs → PriceData.from_bin bs = none →
      CryptoPrices.get_price db ticker = .error .deserialize) := by
  constructor
  · intro h
    simp [CryptoPrices.get_price, get_from_tree, h]
  · intro bs h hbad
    simp [CryptoPrices.get_price, get_from_tree, h, hbad]

/-- A store holding one corrupt entry (three bytes cannot begin a
16-byte `u128`). -/
def dbC6 : List (String × List Nat) := [("BAD", [1, 2, 3])]

/-- Witness for C6: a never-written key reads as `NotFound`; the
corrupt entry reads as `Deserialize`. -/
theorem get_price_distinguishes_absence_from_corruption_witness :
    CryptoPrices.get_price dbC6 "BTC" = .error .notFound ∧
    CryptoPrices.get_price dbC6 "BAD" = .error .deserialize :=
  ⟨(get_price_distinguishes_absence_from_corruption dbC6 "BTC").1 (by decide),
   (get_price_distinguishes_absence_from_corruption dbC6 "BAD").2 [1, 2, 3]
     (by decide) (by decide)⟩

/-! ## The contract adapter (`src/interface/mod.rs`, `ChainlinkContract`)

```rust
pub struct ChainlinkContract { pub contract: ..., pub decimals: u8 }
pub async fn new(provider, contract_address) -> Result<ChainlinkContract, Error> {
    let contract = IAggregatorV3Interface::new(...);
    let decimalsReturn { _0: decimals } = contract.decimals().call().await?;
    Ok(ChainlinkContract { contract, decimals })
}
pub async fn get_price(&self) -> Result<PriceData, Error> {
    let latestRoundDataReturn { roundId, answer, startedAt, updatedAt, answeredInRound } =
        self.contract.latestRoundData().call().await?;
    let float_price: f64 = answer.to_string().parse().unwrap();
    let human_price = float_price / (10f64.powi(self.decimals.into()));
    Ok(PriceData { round_id: roundId, answered_in_round: answeredInRound,
                   started_at: startedAt.to_string(), updated_at: updatedAt.to_string(),
                   price: human_price })
}
```

The aggregator contract is modelled as a time-indexed oracle: at time
`t` it reports a `decimals` value and latest-round data.  Each RPC the
adapter performs is recorded, so "fetched once and cached" is the
count of `decimals()` calls.  The `f64` pipeline
(`answer.to_string().parse()`, then division by `10f64.powi(...)`) is
modelled as exact rational arithmetic on the integral contract answer:
the operation performed is the division of the raw answer by ten to
the cached `decimals`, and IEEE-754 rounding is abstracted away. -/

/-- One RPC performed by the adapter against the aggregator contract. -/
inductive RpcCall where
  | decimalsCall : RpcCall
  | latestRoundDataCall : RpcCall
  deriving DecidableEq

/-- The aggregator contract as seen over RPC, time-indexed: `decimals`
may in principle change over time (the caching question of the spec),
and every read of the latest round happens at some time `t`. -/
structure AggregatorState where
  decimals : Nat → Nat
  answer : Nat → Int
  roundId : Nat → Nat
  answeredInRound : Nat → Nat
  startedAt : Nat → Nat
  updatedAt : Nat → Nat

/-- `ChainlinkContract`: the instantiated contract handle plus the
cached `decimals: u8`. -/
structure ChainlinkContract where
  contract_address : String
  decimals : Nat

/-- The numeric view of the `PriceData` the adapter returns: the
timestamps as rendered decimal strings (`U256::to_string`), the price
as an exact rational. -/
structure PriceDataNum where
  round_id : Nat
  answered_in_round : Nat
  started_at : String
  updated_at : String
  price : ℚ

/-- `ChainlinkContract::new` at time `t`: performs the single
`decimals()` RPC and stores its result in the adapter. -/
def ChainlinkContract.new (oracle : AggregatorState) (t : Nat)
    (contract_address : String) : ChainlinkContract × List RpcCall :=
  ({ contract_address := contract_address, decimals := oracle.decimals t },
   [RpcCall.decimalsCall])

/-- `ChainlinkContract::get_price` at time `t`: performs the single
`latestRoundData()` RPC and scales the raw answer by the cached
`decimals` (exact-rational model of the `f64` division). -/
def ChainlinkContract.get_price (c : ChainlinkContract)
    (oracle : AggregatorState) (t : Nat) : PriceDataNum × List RpcCall :=
  ({ round_id := oracle.roundId t,
     answered_in_round := oracle.answeredInRound t,
     started_at := Nat.repr (oracle.startedAt t),
     updated_at := Nat.repr (oracle.updatedAt t),
     price := (oracle.answer t : ℚ) / 10 ^ c.decimals },
   [RpcCall.latestRoundDataCall])

/-- C9: decimals is fetched exactly once, at construction, and cached.
`ChainlinkContract::new` performs exactly one `decimals()` RPC; a
`get_price` at any later time `t'` performs no `decimals()` RPC at all,
and the price it returns is the raw contract answer at `t'` divided by
ten to the `decimals` value read at construction time `t` — even if the
contract's `decimals` has changed by `t'`, the cached value is used
(IEEE-754 rounding of the division abstracted to exact rationals). -/
theorem decimals_fetched_once_and_cached (oracle : AggregatorState)
    (t t' : Nat) (addr : String) :
    ((ChainlinkContract.new oracle t addr).2.count RpcCall.decimalsCall = 1) ∧
    ((((ChainlinkContract.new oracle t addr).1.get_price oracle t').2.count
        RpcCall.decimalsCall) = 0) ∧
    (((ChainlinkContract.new oracle t addr).1.get_price oracle t').1.price =
      (oracle.answer t' : ℚ) / 10 ^ oracle.decimals t) := by
  refine ⟨?_, ?_, rfl⟩ <;> simp [ChainlinkContract.new, ChainlinkContract.get_price]

/-! ## Chain presets (`src/chains/mod.rs`, `Chain`)

```rust
pub fn new(chain_id: u32, rpc_url: Option<&'static str>) -> Self {
    let contracts = match chain_id {
        1 => ethereum_contracts(),
        42161 => arbitrum_contracts(),
        _ => HashMap::new(),
    };
    match chain_id {
        1 => Chain::Ethereum { rpc_url, contracts },
        42161 => Chain::ArbitrumOne { rpc_url, contracts },
        _ => unreachable!(),
    }
}
```

`Chain::new` is total only on chain ids 1 and 42161; every other id
reaches `unreachable!`, which panics — modelled as `none`.  The
contract maps (insertion sequences of `contracts.rs`) are association
lists. -/

/-- `Chain` (`src/chains/mod.rs`): one variant per supported network,
each holding an optional custom RPC url and the preset contract map. -/
inductive Chain where
  | ethereum (rpc_url : Option String) (contracts : List (String × String)) : Chain
  | arbitrumOne (rpc_url : Option String) (contracts : List (String × String)) : Chain
  deriving DecidableEq

/-- `ethereum_contracts` (`src/chains/contracts.rs`). -/
def ethereum_contracts : List (String × String) :=
  [("BTC", "0xabcd1234efgh5678ijkl9012mnop3456qrst7890"),
   ("ETH", "0x1234abcd5678efgh9012ijkl3456mnop7890qrst")]

/-- `arbitrum_contracts` (`src/chains/contracts.rs`). -/
def arbitrum_contracts : List (String × String) :=
  [("BTC", "0xabcd1234efgh5678ijkl9012mnop3456qrst7890"),
   ("ETH", "0x1234abcd5678efgh9012ijkl3456mnop7890qrst")]

/-- The first `match chain_id` of `Chain::new`: the contracts lookup,
whose fallback arm yields an empty map for unknown ids. -/
def chainContracts (chain_id : Nat) : List (String × String) :=
  if chain_id = 1 then ethereum_contracts
  else if chain_id = 42161 then arbitrum_contracts
  else []

/-- `Chain::new`: the second `match chain_id`; its fallback arm is
`unreachable!`, a panic, modelled as `none`. -/
def Chain.new (chain_id : Nat) (rpc_url : Option String) : Option Chain :=
  let contracts := chainContracts chain_id
  if chain_id = 1 then some (.ethereum rpc_url contracts)
  else if chain_id = 42161 then some (.arbitrumOne rpc_url contracts)
  else none

/-- `Chain::rpc_url`: the caller's url if one was given, else the
hard-coded default endpoint of the network. -/
def Chain.rpc_url : Chain → String
  | .ethereum (some url) _ => url
  | .ethereum none _ => "https://1rpc.io/eth"
  | .arbitrumOne (some url) _ => url
  | .arbitrumOne none _ => "https://1rpc.io/arb"

/-- C10: for every chain id other than 1 and 42161, `Chain::new`
panics (`unreachable!`, modelled `none`) instead of returning a chain
or an error — even though its contracts lookup has a fallback arm
producing an empty map for exactly those ids; for chain id 1
(respectively 42161) with no custom url, `rpc_url()` returns the
hard-coded default endpoint. -/
theorem chain_new_panics_outside_presets (chain_id : Nat) (rpc : Option String)
    (h1 : chain_id ≠ 1) (h2 : chain_id ≠ 42161) :
    Chain.new chain_id rpc = none ∧
    chainContracts chain_id = [] ∧
    (Chain.new 1 none).map Chain.rpc_url = some "https://1rpc.io/eth" ∧
    (Chain.new 42161 none).map Chain.rpc_url = some "https://1rpc.io/arb" := by
  refine ⟨?_, ?_, rfl, rfl⟩ <;> simp [Chain.new, chainContracts, h1, h2]

/-- Witness for C10 at the unsupported chain id 56 (BNB chain). -/
theorem chain_new_panics_outside_presets_witness :
    Chain.new 56 (some "https://bsc-dataseed1.binance.org/") = none ∧
    chainContracts 56 = [] ∧
    (Chain.new 1 none).map Chain.rpc_url = some "https://1rpc.io/eth" ∧
    (Chain.new 42161 none).map Chain.rpc_url = some "https://1rpc.io/arb" :=
  chain_new_panics_outside_presets 56 (some "https://bsc-dataseed1.binance.org/")
    (by decide) (by decide)
